import Mathlib

/-!
Shallow embedding of the STM32 CRYP cipher driver
(drivers/crypto/crypto_stm32.c): byte-order transform
(copy_reverse_words), device/session data model, the six mode strategy
functions, the session pool scan, session setup and session free.

The vendor HAL (HAL_CRYP_SetConfig / Encrypt / Decrypt / Init / DeInit)
is modelled as an abstract oracle `HW`: boolean success flags plus
abstract byte-level transfer functions.  Semaphore takes/gives and HAL
invocations are recorded as event traces so that claims about lock usage
and about "no hardware interaction before rejection" can be stated.

Buffers are lists of byte values (`List Nat`); C `int` lengths are `Int`.
-/

set_option autoImplicit false

namespace CryptoStm32

/-- Block length of the AES engine in bytes (BLOCK_LEN_BYTES). -/
def BLOCK_LEN_BYTES : Nat := 16

/-- Errno value EINVAL (invalid argument); the driver returns -EINVAL. -/
def EINVAL : Int := 22

/-- Errno value EIO (input/output error); the driver returns - EIO. -/
def EIO : Int := 5

/-- Errno value ENOSPC (no space left); the driver returns -ENOSPC. -/
def ENOSPC : Int := 28

/-- Capability flag CAP_RAW_KEY (bit 1 of the u16 flags word). -/
def CAP_RAW_KEY : Nat := 2

/-- Capability flag CAP_SEPARATE_IO_BUFS (bit 3 of the u16 flags word). -/
def CAP_SEPARATE_IO_BUFS : Nat := 8

/-- Capability flag CAP_SYNC_OPS (bit 4 of the u16 flags word). -/
def CAP_SYNC_OPS : Nat := 16

/-- CRYP_SUPPORT: the capability mask the driver supports. -/
def CRYP_SUPPORT : Nat := CAP_RAW_KEY ||| CAP_SEPARATE_IO_BUFS ||| CAP_SYNC_OPS

/-- Cipher algorithm code CRYPTO_CIPHER_ALGO_AES. -/
def CRYPTO_CIPHER_ALGO_AES : Nat := 1

/-- Cipher mode code CRYPTO_CIPHER_MODE_ECB. -/
def CRYPTO_CIPHER_MODE_ECB : Nat := 1

/-- Cipher mode code CRYPTO_CIPHER_MODE_CBC. -/
def CRYPTO_CIPHER_MODE_CBC : Nat := 2

/-- Cipher mode code CRYPTO_CIPHER_MODE_CTR. -/
def CRYPTO_CIPHER_MODE_CTR : Nat := 3

/-- Cipher mode code CRYPTO_CIPHER_MODE_CCM (unsupported by the driver). -/
def CRYPTO_CIPHER_MODE_CCM : Nat := 4

/-- Operation code CRYPTO_CIPHER_OP_DECRYPT. -/
def CRYPTO_CIPHER_OP_DECRYPT : Nat := 0

/-- Operation code CRYPTO_CIPHER_OP_ENCRYPT. -/
def CRYPTO_CIPHER_OP_ENCRYPT : Nat := 1

/-- HAL key size code for 128-bit keys (abstract distinct code). -/
def CRYP_KEYSIZE_128B : Nat := 0

/-- HAL key size code for 192-bit keys (abstract distinct code). -/
def CRYP_KEYSIZE_192B : Nat := 1

/-- HAL key size code for 256-bit keys (abstract distinct code). -/
def CRYP_KEYSIZE_256B : Nat := 2

/-- HAL algorithm code CRYP_AES_ECB (abstract distinct code). -/
def CRYP_AES_ECB : Nat := 10

/-- HAL algorithm code CRYP_AES_CBC (abstract distinct code). -/
def CRYP_AES_CBC : Nat := 11

/-- HAL algorithm code CRYP_AES_CTR (abstract distinct code). -/
def CRYP_AES_CTR : Nat := 12

/-- HAL data type code CRYP_DATATYPE_8B (abstract distinct code). -/
def CRYP_DATATYPE_8B : Nat := 2

/-- HAL data width unit CRYP_DATAWIDTHUNIT_BYTE (abstract code). -/
def CRYP_DATAWIDTHUNIT_BYTE : Nat := 1

/-- Maximum AES key length in bytes (CRYPTO_STM32_AES_MAX_KEY_LEN). -/
def CRYPTO_STM32_AES_MAX_KEY_LEN : Nat := 32

/-- Reverse the byte order of every 4-byte word of a buffer: the effect of
the `sys_mem_swap(&dst_buf[i], 4)` loop in copy_reverse_words.  A trailing
fragment shorter than 4 bytes is left as is (the C loop would read past the
end; all call sites have 4-divisible buffer lengths). -/
def swapWords : List Nat → List Nat
  | a :: b :: c :: d :: rest => d :: c :: b :: a :: swapWords rest
  | l => l

/-- Embedding of copy_reverse_words(dst_buf, dst_len, src_buf, src_len):
copy src_len bytes of src over the head of dst, then word-swap the whole
destination.  dst_len is the length of dst_buf (as at every call site).
The two __ASSERT_NO_MSG preconditions (dst_len >= src_len, dst_len % 4 == 0)
are modelled as fail-fast: `none` when an assertion fires.  src_len is an
Int because the CTR ivlen arithmetic can make it exceed dst_len. -/
def copy_reverse_words (dst_buf src_buf : List Nat) (src_len : Int) : Option (List Nat) :=
  if (dst_buf.length : Int) < src_len then none
  else if dst_buf.length % 4 ≠ 0 then none
  else some (swapWords (src_buf.take src_len.toNat ++ dst_buf.drop src_len.toNat))

/-- Identifier of one of the two semaphores of crypto_stm32_data. -/
inductive SemId
  | device
  | session
deriving DecidableEq, Repr

/-- Observable events: semaphore operations and HAL (hardware) calls. -/
inductive Ev
  | takeSem : SemId → Ev
  | giveSem : SemId → Ev
  | halSetConfig
  | halEncrypt
  | halDecrypt
  | halInit
  | halDeInit
  | halReset
deriving DecidableEq, Repr

/-- CRYP_ConfigTypeDef as used by the driver.  Pointer fields (pInitVect,
pKey) are modelled by value; the empty list stands for NULL. -/
structure CrypConfig where
  pInitVect : List Nat
  KeySize : Nat
  Algorithm : Nat
  pKey : List Nat
  DataType : Nat
  DataWidthUnit : Nat
deriving DecidableEq, Repr

/-- The all-zero configuration produced by memset(&session->config, 0, ...). -/
def zeroConfig : CrypConfig := ⟨[], 0, 0, [], 0, 0⟩

/-- Abstract HAL oracle: success flags of each HAL entry point, and the
byte-level transfer functions of the engine (not interpreted here). -/
structure HW where
  setConfigOk : Bool
  encryptOk : Bool
  decryptOk : Bool
  initOk : Bool
  deinitOk : Bool
  encFn : CrypConfig → List Nat → Int → List Nat
  decFn : CrypConfig → List Nat → Int → List Nat

/-- Embedding of struct crypto_stm32_session. -/
structure crypto_stm32_session where
  in_use : Bool
  key : List Nat
  config : CrypConfig
deriving DecidableEq, Repr

/-- A fresh, never-used session slot (static zero initialisation). -/
def blankSession : crypto_stm32_session :=
  ⟨false, List.replicate CRYPTO_STM32_AES_MAX_KEY_LEN 0, zeroConfig⟩

/-- HAL_CRYP state of the accelerator handle (RESET before first init or
after deinit, READY once initialised). -/
inductive HalState
  | reset
  | ready
deriving DecidableEq, Repr

/-- The driver state the claims range over: the static session table
crypto_stm32_sessions plus the accelerator handle state. -/
structure DriverState where
  sessions : List crypto_stm32_session
  hcryp : HalState
deriving Repr

/-- Embedding of struct cipher_pkt: input buffer with its int length, and
the output buffer region the driver writes, with the reported out_len. -/
structure cipher_pkt where
  in_buf : List Nat
  in_len : Int
  out_buf : List Nat
  out_len : Int
deriving DecidableEq, Repr

/-- The mode-strategy handler bound into ctx->ops at setup time. -/
inductive CryptHandler
  | ecbEnc
  | ecbDec
  | cbcEnc
  | cbcDec
  | ctrEnc
  | ctrDec
deriving DecidableEq, Repr

/-- Embedding of the caller-owned struct cipher_ctx fields the driver
reads and writes. -/
structure cipher_ctx where
  flags : Nat
  keylen : Nat
  key_bit_stream : List Nat
  ctr_len : Nat
  hndlr : Option CryptHandler := none
  drv_sessn_state : Option Nat := none

/-- Embedding of do_encrypt: take the device semaphore, HAL_CRYP_SetConfig,
HAL_CRYP_Encrypt, give the semaphore; - EIO on any HAL failure, releasing
the semaphore on every exit path.  Returns (ret, bytes written on success,
event trace). -/
def do_encrypt (hw : HW) (cfg : CrypConfig) (in_buf : List Nat) (in_len : Int) :
    Int × List Nat × List Ev :=
  if hw.setConfigOk = false then
    (- EIO, [], [Ev.takeSem SemId.device, Ev.halSetConfig, Ev.giveSem SemId.device])
  else if hw.encryptOk = false then
    (- EIO, [],
      [Ev.takeSem SemId.device, Ev.halSetConfig, Ev.halEncrypt, Ev.giveSem SemId.device])
  else
    (0, hw.encFn cfg in_buf in_len,
      [Ev.takeSem SemId.device, Ev.halSetConfig, Ev.halEncrypt, Ev.giveSem SemId.device])

/-- Embedding of do_decrypt, symmetric to do_encrypt with HAL_CRYP_Decrypt. -/
def do_decrypt (hw : HW) (cfg : CrypConfig) (in_buf : List Nat) (in_len : Int) :
    Int × List Nat × List Ev :=
  if hw.setConfigOk = false then
    (- EIO, [], [Ev.takeSem SemId.device, Ev.halSetConfig, Ev.giveSem SemId.device])
  else if hw.decryptOk = false then
    (- EIO, [],
      [Ev.takeSem SemId.device, Ev.halSetConfig, Ev.halDecrypt, Ev.giveSem SemId.device])
  else
    (0, hw.decFn cfg in_buf in_len,
      [Ev.takeSem SemId.device, Ev.halSetConfig, Ev.halDecrypt, Ev.giveSem SemId.device])

/-- Result of one mode-strategy call: return code, the session (whose
config the call may update), the packet, and the event trace. -/
structure OpResult where
  ret : Int
  session : crypto_stm32_session
  pkt : cipher_pkt
  trace : List Ev
deriving Repr

/-- Embedding of crypto_stm32_ecb_encrypt: reject in_len > 16 with -EINVAL
before any hardware call; on success out_len is 16. -/
def crypto_stm32_ecb_encrypt (hw : HW) (session : crypto_stm32_session)
    (pkt : cipher_pkt) : OpResult :=
  if 16 < pkt.in_len then
    ⟨-EINVAL, session, pkt, []⟩
  else
    let r := do_encrypt hw session.config pkt.in_buf pkt.in_len
    if r.1 = 0 then
      ⟨r.1, session, { pkt with out_buf := r.2.1, out_len := 16 }, r.2.2⟩
    else
      ⟨r.1, session, pkt, r.2.2⟩

/-- Embedding of crypto_stm32_ecb_decrypt. -/
def crypto_stm32_ecb_decrypt (hw : HW) (session : crypto_stm32_session)
    (pkt : cipher_pkt) : OpResult :=
  if 16 < pkt.in_len then
    ⟨-EINVAL, session, pkt, []⟩
  else
    let r := do_decrypt hw session.config pkt.in_buf pkt.in_len
    if r.1 = 0 then
      ⟨r.1, session, { pkt with out_buf := r.2.1, out_len := 16 }, r.2.2⟩
    else
      ⟨r.1, session, pkt, r.2.2⟩

/-- Embedding of crypto_stm32_cbc_encrypt: word-swap the 16-byte IV into
the stack buffer vec, point config.pInitVect at it, memcpy the raw IV to
the first 16 output bytes, encrypt into out_buf + 16, and on success set
out_len = in_len + 16.  The copy_reverse_words assertions provably hold
here (dst_len = src_len = 16), so the `getD` default is never taken. -/
def crypto_stm32_cbc_encrypt (hw : HW) (session : crypto_stm32_session)
    (pkt : cipher_pkt) (iv : List Nat) : OpResult :=
  let vec := (copy_reverse_words (List.replicate BLOCK_LEN_BYTES 0) iv 16).getD []
  let session1 := { session with config := { session.config with pInitVect := vec } }
  let prefixed := iv.take 16 ++ pkt.out_buf.drop 16
  let r := do_encrypt hw session1.config pkt.in_buf pkt.in_len
  if r.1 = 0 then
    ⟨r.1, session1,
      { pkt with out_buf := iv.take 16 ++ r.2.1, out_len := pkt.in_len + 16 }, r.2.2⟩
  else
    ⟨r.1, session1, { pkt with out_buf := prefixed }, r.2.2⟩

/-- Embedding of crypto_stm32_cbc_decrypt: word-swap the 16-byte IV into
vec, point config.pInitVect at it, decrypt starting 16 bytes into the
input (in_buf + 16) with size in_len, and on success set
out_len = in_len - 16. -/
def crypto_stm32_cbc_decrypt (hw : HW) (session : crypto_stm32_session)
    (pkt : cipher_pkt) (iv : List Nat) : OpResult :=
  let vec := (copy_reverse_words (List.replicate BLOCK_LEN_BYTES 0) iv 16).getD []
  let session1 := { session with config := { session.config with pInitVect := vec } }
  let r := do_decrypt hw session1.config (pkt.in_buf.drop 16) pkt.in_len
  if r.1 = 0 then
    ⟨r.1, session1,
      { pkt with out_buf := r.2.1, out_len := pkt.in_len - 16 }, r.2.2⟩
  else
    ⟨r.1, session1, pkt, r.2.2⟩

/-- Embedding of crypto_stm32_ctr_encrypt: zero-init the 16-byte counter
block, word-swap ivlen = keylen - (ctr_len >> 3) bytes of the caller IV
into it, point config.pInitVect at it, encrypt, and on success set
out_len = in_len.  `none` models the copy_reverse_words assertion firing
(ivlen > 16). -/
def crypto_stm32_ctr_encrypt (hw : HW) (ctx : cipher_ctx)
    (session : crypto_stm32_session) (pkt : cipher_pkt) (iv : List Nat) :
    Option OpResult :=
  let ivlen : Int := (ctx.keylen : Int) - ((ctx.ctr_len >>> 3 : Nat) : Int)
  match copy_reverse_words (List.replicate BLOCK_LEN_BYTES 0) iv ivlen with
  | none => none
  | some ctr =>
    let session1 := { session with config := { session.config with pInitVect := ctr } }
    let r := do_encrypt hw session1.config pkt.in_buf pkt.in_len
    if r.1 = 0 then
      some ⟨r.1, session1,
        { pkt with out_buf := r.2.1, out_len := pkt.in_len }, r.2.2⟩
    else
      some ⟨r.1, session1, pkt, r.2.2⟩

/-- Embedding of crypto_stm32_ctr_decrypt, symmetric to ctr_encrypt. -/
def crypto_stm32_ctr_decrypt (hw : HW) (ctx : cipher_ctx)
    (session : crypto_stm32_session) (pkt : cipher_pkt) (iv : List Nat) :
    Option OpResult :=
  let ivlen : Int := (ctx.keylen : Int) - ((ctx.ctr_len >>> 3 : Nat) : Int)
  match copy_reverse_words (List.replicate BLOCK_LEN_BYTES 0) iv ivlen with
  | none => none
  | some ctr =>
    let session1 := { session with config := { session.config with pInitVect := ctr } }
    let r := do_decrypt hw session1.config pkt.in_buf pkt.in_len
    if r.1 = 0 then
      some ⟨r.1, session1,
        { pkt with out_buf := r.2.1, out_len := pkt.in_len }, r.2.2⟩
    else
      some ⟨r.1, session1, pkt, r.2.2⟩

/-- The scan loop of crypto_stm32_get_unused_session_index: find the first
slot with in_use = false, claim it, return its index and the updated
table; `none` when every slot is occupied. -/
def acquireFirst : List crypto_stm32_session →
    Option (Nat × List crypto_stm32_session)
  | [] => none
  | s :: rest =>
    if s.in_use then
      match acquireFirst rest with
      | none => none
      | some (i, rest') => some (i + 1, s :: rest')
    else
      some (0, { s with in_use := true } :: rest)

/-- Embedding of crypto_stm32_get_unused_session_index: scan under the
session semaphore; -1 when the pool is exhausted. -/
def crypto_stm32_get_unused_session_index (st : DriverState) :
    Int × DriverState × List Ev :=
  match acquireFirst st.sessions with
  | none => (-1, st, [Ev.takeSem SemId.session, Ev.giveSem SemId.session])
  | some (i, ss) =>
    ((i : Int), { st with sessions := ss },
      [Ev.takeSem SemId.session, Ev.giveSem SemId.session])

/-- Store to one slot of the session table (array element update). -/
def modifySession : List crypto_stm32_session → Nat →
    (crypto_stm32_session → crypto_stm32_session) → List crypto_stm32_session
  | [], _, _ => []
  | s :: rest, 0, f => f s :: rest
  | s :: rest, n + 1, f => s :: modifySession rest n f

/-- Result of crypto_stm32_session_setup. -/
structure SetupResult where
  ret : Int
  st : DriverState
  ctx : cipher_ctx
  trace : List Ev

/-- The handler crypto_stm32_session_setup binds for (op_type, mode);
mode is one of ECB/CBC/CTR when this is reached. -/
def bindHandler (mode op_type : Nat) : CryptHandler :=
  if op_type = CRYPTO_CIPHER_OP_ENCRYPT then
    if mode = CRYPTO_CIPHER_MODE_ECB then CryptHandler.ecbEnc
    else if mode = CRYPTO_CIPHER_MODE_CBC then CryptHandler.cbcEnc
    else CryptHandler.ctrEnc
  else
    if mode = CRYPTO_CIPHER_MODE_ECB then CryptHandler.ecbDec
    else if mode = CRYPTO_CIPHER_MODE_CBC then CryptHandler.cbcDec
    else CryptHandler.ctrDec

/-- Embedding of crypto_stm32_session_setup: validate flags (u16 mask),
algorithm, mode and key length before any hardware interaction; acquire a
pool slot; lazily HAL_CRYP_Init on the first session (releasing the slot
and returning - EIO on failure); map the key size code, bind the mode
handler, word-swap the key into the session, fill the config, and bind the
session to the context. -/
def crypto_stm32_session_setup (hw : HW) (st : DriverState) (ctx : cipher_ctx)
    (algo mode op_type : Nat) : SetupResult :=
  if ctx.flags &&& (65535 ^^^ CRYP_SUPPORT) ≠ 0 then
    ⟨-EINVAL, st, ctx, []⟩
  else if algo ≠ CRYPTO_CIPHER_ALGO_AES then
    ⟨-EINVAL, st, ctx, []⟩
  else if mode ≠ CRYPTO_CIPHER_MODE_ECB ∧ mode ≠ CRYPTO_CIPHER_MODE_CBC ∧
      mode ≠ CRYPTO_CIPHER_MODE_CTR then
    ⟨-EINVAL, st, ctx, []⟩
  else if ctx.keylen ≠ 16 ∧ ctx.keylen ≠ 24 ∧ ctx.keylen ≠ 32 then
    ⟨-EINVAL, st, ctx, []⟩
  else
    match acquireFirst st.sessions with
    | none =>
      ⟨-ENOSPC, st, ctx, [Ev.takeSem SemId.session, Ev.giveSem SemId.session]⟩
    | some (idx, ss1) =>
      let ss2 := modifySession ss1 idx (fun s => { s with config := zeroConfig })
      let acqTrace := [Ev.takeSem SemId.session, Ev.giveSem SemId.session]
      let finish := fun (ss : List crypto_stm32_session) (hal : HalState)
          (tr : List Ev) =>
        let keySizeCode :=
          if ctx.keylen = 16 then CRYP_KEYSIZE_128B
          else if ctx.keylen = 24 then CRYP_KEYSIZE_192B
          else CRYP_KEYSIZE_256B
        let algoCode :=
          if mode = CRYPTO_CIPHER_MODE_ECB then CRYP_AES_ECB
          else if mode = CRYPTO_CIPHER_MODE_CBC then CRYP_AES_CBC
          else CRYP_AES_CTR
        let ss3 := modifySession ss idx (fun s =>
          let key1 :=
            (copy_reverse_words s.key ctx.key_bit_stream (ctx.keylen : Int)).getD s.key
          { s with
            key := key1,
            config := { s.config with
              KeySize := keySizeCode, Algorithm := algoCode, pKey := key1,
              DataType := CRYP_DATATYPE_8B,
              DataWidthUnit := CRYP_DATAWIDTHUNIT_BYTE } })
        SetupResult.mk 0 ⟨ss3, hal⟩
          { ctx with hndlr := some (bindHandler mode op_type),
                     drv_sessn_state := some idx } tr
      if st.hcryp = HalState.reset then
        if hw.initOk = false then
          ⟨- EIO,
            { st with sessions :=
                modifySession ss2 idx (fun s => { s with in_use := false }) },
            ctx, acqTrace ++ [Ev.halInit]⟩
        else
          finish ss2 HalState.ready (acqTrace ++ [Ev.halInit])
      else
        finish ss2 st.hcryp acqTrace

/-- Embedding of crypto_stm32_session_free for the session bound at slot
idx: clear in_use, then under the session semaphore scan for any live
session; if none remains, HAL_CRYP_DeInit (propagating failure as - EIO)
and force/release the peripheral reset. -/
def crypto_stm32_session_free (hw : HW) (st : DriverState) (idx : Nat) :
    Int × DriverState × List Ev :=
  let ss1 := modifySession st.sessions idx (fun s => { s with in_use := false })
  if ss1.any (fun s => s.in_use) then
    (0, { st with sessions := ss1 },
      [Ev.takeSem SemId.session, Ev.giveSem SemId.session])
  else if hw.deinitOk = false then
    (- EIO, { st with sessions := ss1 },
      [Ev.takeSem SemId.session, Ev.halDeInit, Ev.giveSem SemId.session])
  else
    (0, { st with sessions := ss1, hcryp := HalState.reset },
      [Ev.takeSem SemId.session, Ev.halDeInit, Ev.halReset,
        Ev.giveSem SemId.session])

/-- An oracle on which every HAL call succeeds and the engine's transfer
functions are trivial (used for concrete witnesses). -/
def allOk : HW := ⟨true, true, true, true, true, fun _ _ _ => [], fun _ _ _ => []⟩

/-- An oracle on which HAL_CRYP_DeInit fails and everything else
succeeds (used for concrete witnesses of teardown-failure behaviour). -/
def hwDeinitFail : HW :=
  ⟨true, true, true, true, false, fun _ _ _ => [], fun _ _ _ => []⟩

/-- A claimed slot: a fresh session with in_use set. -/
def usedSession : crypto_stm32_session := { blankSession with in_use := true }

/-- The session table after k successful acquisitions from an all-free
pool of size n: the first k slots claimed, the rest fresh. -/
def poolAfter (n k : Nat) : List crypto_stm32_session :=
  List.replicate k usedSession ++ List.replicate (n - k) blankSession

/-- The in_use flags of a session table, in slot order. -/
def mapInUse (l : List crypto_stm32_session) : List Bool :=
  l.map (fun s => s.in_use)

/-- Concrete CTR context: AES-128 key, 8-bit counter length, hence
ivlen = 16 - 1 = 15, which is not a multiple of 4. -/
def ctrTailCtx : cipher_ctx := ⟨0, 16, List.replicate 16 0, 8, none, none⟩

/-- A 15-byte nonce of all-one bytes for the CTR tail counterexample. -/
def ctrTailIv : List Nat := List.replicate 15 1

/-- A concrete one-block packet for the CTR tail counterexample. -/
def ctrTailPkt : cipher_pkt := ⟨List.replicate 16 0, 16, List.replicate 16 0, 0⟩

/-- A driver state with exactly one live session (slot 0) and the
accelerator initialised. -/
def oneLiveState : DriverState :=
  ⟨[{ blankSession with in_use := true }], HalState.ready⟩

/-- Word-swapping preserves the buffer length. -/
theorem swapWords_length : ∀ l : List Nat, (swapWords l).length = l.length
  | [] => rfl
  | [_] => rfl
  | [_, _] => rfl
  | [_, _, _] => rfl
  | _ :: _ :: _ :: _ :: rest => by
    simp [swapWords, swapWords_length rest]

/-- Word-swapping a buffer whose length is a multiple of 4 twice restores
the original bytes. -/
theorem swapWords_swapWords :
    ∀ l : List Nat, l.length % 4 = 0 → swapWords (swapWords l) = l
  | [], _ => rfl
  | [_], h => by simp at h
  | [_, _], h => by simp at h
  | [_, _, _], h => by simp at h
  | _ :: _ :: _ :: _ :: rest, h => by
    have h4 : rest.length % 4 = 0 := by
      simp only [List.length_cons] at h
      omega
    simp [swapWords, swapWords_swapWords rest h4]

/-- Word-swapping distributes over append when the first part is
word-aligned. -/
theorem swapWords_append :
    ∀ l₁ l₂ : List Nat, l₁.length % 4 = 0 →
      swapWords (l₁ ++ l₂) = swapWords l₁ ++ swapWords l₂
  | [], l₂, _ => rfl
  | [_], _, h => by simp at h
  | [_, _], _, h => by simp at h
  | [_, _, _], _, h => by simp at h
  | a :: b :: c :: d :: rest, l₂, h => by
    have h4 : rest.length % 4 = 0 := by
      simp only [List.length_cons] at h
      omega
    simp [swapWords, List.cons_append, swapWords_append rest l₂ h4]

/-- Word-swapping a constant buffer is the identity. -/
theorem swapWords_all_eq :
    ∀ (l : List Nat) (a : Nat), (∀ x ∈ l, x = a) → swapWords l = l
  | [], _, _ => rfl
  | [_], _, _ => rfl
  | [_, _], _, _ => rfl
  | [_, _, _], _, _ => rfl
  | x :: y :: z :: w :: rest, a, h => by
    have hx : x = a := h x (by simp)
    have hy : y = a := h y (by simp)
    have hz : z = a := h z (by simp)
    have hw1 : w = a := h w (by simp)
    have hr : ∀ u ∈ rest, u = a := fun u hu => h u (by simp [hu])
    simp [swapWords, hx, hy, hz, hw1, swapWords_all_eq rest a hr]

/-- C10: the byte-order transform is self-inverse: for every buffer whose
length is a multiple of 4, applying copy_reverse_words twice over the same
region (dst_len = src_len = the region length) succeeds and restores the
original byte contents. -/
theorem copy_reverse_words_involutive (l : List Nat) (h : l.length % 4 = 0) :
    (copy_reverse_words l l (l.length : Int)).bind
      (fun r => copy_reverse_words r r (r.length : Int)) = some l := by
  have hlen : (swapWords l).length = l.length := swapWords_length l
  have h1 : copy_reverse_words l l (l.length : Int) = some (swapWords l) := by
    simp [copy_reverse_words, h]
  have h2 : copy_reverse_words (swapWords l) (swapWords l)
      (((swapWords l).length : Nat) : Int) = some (swapWords (swapWords l)) := by
    simp [copy_reverse_words, hlen, h]
  rw [h1, Option.some_bind, h2, swapWords_swapWords l h]

/-- Witness for C10 at a concrete 8-byte buffer. -/
theorem copy_reverse_words_involutive_witness :
    ([4, 3, 2, 1, 8, 7, 6, 5] : List Nat).length % 4 = 0 ∧
      (copy_reverse_words [4, 3, 2, 1, 8, 7, 6, 5] [4, 3, 2, 1, 8, 7, 6, 5]
          (([4, 3, 2, 1, 8, 7, 6, 5] : List Nat).length : Int)).bind
        (fun r => copy_reverse_words r r (r.length : Int)) =
        some [4, 3, 2, 1, 8, 7, 6, 5] :=
  ⟨by decide, copy_reverse_words_involutive [4, 3, 2, 1, 8, 7, 6, 5] (by decide)⟩

/-- C4: CTR operations are safe exactly under the arithmetic precondition
ivlen = keylen - ctr_len/8 at most 16: then the byte-order transform's
src_len <= dst_len assertion holds for the 16-byte counter buffer and both
CTR operations complete; when 16 < ivlen the assertion fires (the copy
would overrun the 16-byte stack counter buffer), modelled as fail-fast
`none`, for both directions. -/
theorem ctr_ivlen_safety (hw : HW) (ctx : cipher_ctx)
    (session : crypto_stm32_session) (pkt : cipher_pkt) (iv : List Nat) :
    ((ctx.keylen : Int) - ((ctx.ctr_len >>> 3 : Nat) : Int) ≤ 16 →
      (copy_reverse_words (List.replicate BLOCK_LEN_BYTES 0) iv
          ((ctx.keylen : Int) - ((ctx.ctr_len >>> 3 : Nat) : Int))).isSome ∧
      (crypto_stm32_ctr_encrypt hw ctx session pkt iv).isSome ∧
      (crypto_stm32_ctr_decrypt hw ctx session pkt iv).isSome) ∧
    (16 < (ctx.keylen : Int) - ((ctx.ctr_len >>> 3 : Nat) : Int) →
      crypto_stm32_ctr_encrypt hw ctx session pkt iv = none ∧
      crypto_stm32_ctr_decrypt hw ctx session pkt iv = none) := by
  constructor
  · intro hle
    have hcrw : (copy_reverse_words (List.replicate BLOCK_LEN_BYTES 0) iv
        ((ctx.keylen : Int) - ((ctx.ctr_len >>> 3 : Nat) : Int))).isSome := by
      rw [copy_reverse_words]
      split
      · next hlt =>
        exact absurd hlt (by simpa [BLOCK_LEN_BYTES] using not_lt.mpr hle)
      · split
        · next hmod => exact absurd hmod (by simp [BLOCK_LEN_BYTES])
        · rfl
    obtain ⟨ctr, hctr⟩ := Option.isSome_iff_exists.mp hcrw
    refine ⟨hcrw, ?_, ?_⟩
    · rw [crypto_stm32_ctr_encrypt, hctr]
      split
      · next heq => exact absurd heq (by simp)
      · dsimp only
        split <;> rfl
    · rw [crypto_stm32_ctr_decrypt, hctr]
      split
      · next heq => exact absurd heq (by simp)
      · dsimp only
        split <;> rfl
  · intro hgt
    have hnone : copy_reverse_words (List.replicate BLOCK_LEN_BYTES 0) iv
        ((ctx.keylen : Int) - ((ctx.ctr_len >>> 3 : Nat) : Int)) = none := by
      rw [copy_reverse_words, if_pos (by simpa [BLOCK_LEN_BYTES] using hgt)]
    constructor
    · rw [crypto_stm32_ctr_encrypt, hnone]
    · rw [crypto_stm32_ctr_decrypt, hnone]

/-- Witness for C4 at an AES-256 key with a 32-bit counter: ivlen = 28
exceeds 16 and both CTR operations fail fast. -/
theorem ctr_ivlen_safety_witness :
    (16 < ((32 : Nat) : Int) - ((32 >>> 3 : Nat) : Int)) ∧
      (crypto_stm32_ctr_encrypt allOk ⟨0, 32, List.replicate 32 0, 32, none, none⟩
          blankSession ⟨List.replicate 16 0, 16, List.replicate 16 0, 0⟩
          (List.replicate 28 1) = none ∧
        crypto_stm32_ctr_decrypt allOk ⟨0, 32, List.replicate 32 0, 32, none, none⟩
          blankSession ⟨List.replicate 16 0, 16, List.replicate 16 0, 0⟩
          (List.replicate 28 1) = none) :=
  ⟨by decide,
    (ctr_ivlen_safety allOk ⟨0, 32, List.replicate 32 0, 32, none, none⟩
      blankSession ⟨List.replicate 16 0, 16, List.replicate 16 0, 0⟩
      (List.replicate 28 1)).2 (by decide)⟩

/-- C3: ECB in either direction rejects an input longer than 16 bytes with
-EINVAL before any hardware interaction (empty event trace, session and
packet untouched), and every call that succeeds reports out_len = 16. -/
theorem ecb_single_block (hw : HW) (session : crypto_stm32_session)
    (pkt : cipher_pkt) :
    (16 < pkt.in_len →
      crypto_stm32_ecb_encrypt hw session pkt = ⟨-EINVAL, session, pkt, []⟩ ∧
      crypto_stm32_ecb_decrypt hw session pkt = ⟨-EINVAL, session, pkt, []⟩) ∧
    ((crypto_stm32_ecb_encrypt hw session pkt).ret = 0 →
      (crypto_stm32_ecb_encrypt hw session pkt).pkt.out_len = 16) ∧
    ((crypto_stm32_ecb_decrypt hw session pkt).ret = 0 →
      (crypto_stm32_ecb_decrypt hw session pkt).pkt.out_len = 16) := by
  refine ⟨fun h => ?_, ?_, ?_⟩
  · rw [crypto_stm32_ecb_encrypt, crypto_stm32_ecb_decrypt, if_pos h, if_pos h]
    exact ⟨rfl, rfl⟩
  · rw [crypto_stm32_ecb_encrypt]
    split
    · intro h0
      exact absurd h0 (show ¬(-EINVAL = 0) by decide)
    · dsimp only
      split
      · intro _
        rfl
      · next hne => intro h0; exact absurd h0 hne
  · rw [crypto_stm32_ecb_decrypt]
    split
    · intro h0
      exact absurd h0 (show ¬(-EINVAL = 0) by decide)
    · dsimp only
      split
      · intro _
        rfl
      · next hne => intro h0; exact absurd h0 hne

/-- Witness for C3 at a 32-byte input: both directions reject with
-EINVAL, unchanged packet, empty trace. -/
theorem ecb_single_block_witness :
    (16 < (32 : Int)) ∧
      (crypto_stm32_ecb_encrypt allOk blankSession
          ⟨List.replicate 32 0, 32, List.replicate 32 0, 0⟩ =
        ⟨-EINVAL, blankSession, ⟨List.replicate 32 0, 32, List.replicate 32 0, 0⟩, []⟩ ∧
      crypto_stm32_ecb_decrypt allOk blankSession
          ⟨List.replicate 32 0, 32, List.replicate 32 0, 0⟩ =
        ⟨-EINVAL, blankSession, ⟨List.replicate 32 0, 32, List.replicate 32 0, 0⟩, []⟩) :=
  ⟨by decide,
    (ecb_single_block allOk blankSession
      ⟨List.replicate 32 0, 32, List.replicate 32 0, 0⟩).1 (by decide)⟩

/-- C1: every CBC encrypt call that succeeds writes the caller-supplied
16-byte IV verbatim as the first 16 output bytes, writes the engine's
ciphertext starting at offset 16, and reports out_len = in_len + 16; every
CBC decrypt call that succeeds reads the ciphertext starting 16 bytes into
the input buffer and reports out_len = in_len - 16. -/
theorem cbc_iv_layout (hw : HW) (session : crypto_stm32_session)
    (pkt : cipher_pkt) (iv : List Nat) (hiv : iv.length = 16) :
    ((crypto_stm32_cbc_encrypt hw session pkt iv).ret = 0 →
      (crypto_stm32_cbc_encrypt hw session pkt iv).pkt.out_buf =
        iv ++ hw.encFn (crypto_stm32_cbc_encrypt hw session pkt iv).session.config
          pkt.in_buf pkt.in_len ∧
      (crypto_stm32_cbc_encrypt hw session pkt iv).pkt.out_len = pkt.in_len + 16) ∧
    ((crypto_stm32_cbc_decrypt hw session pkt iv).ret = 0 →
      (crypto_stm32_cbc_decrypt hw session pkt iv).pkt.out_buf =
        hw.decFn (crypto_stm32_cbc_decrypt hw session pkt iv).session.config
          (pkt.in_buf.drop 16) pkt.in_len ∧
      (crypto_stm32_cbc_decrypt hw session pkt iv).pkt.out_len = pkt.in_len - 16) := by
  have htake : iv.take 16 = iv := by
    rw [← hiv]
    exact List.take_length iv
  constructor
  · rw [crypto_stm32_cbc_encrypt, do_encrypt]
    cases hsc : hw.setConfigOk <;> cases hec : hw.encryptOk <;>
      simp [htake, EIO]
  · rw [crypto_stm32_cbc_decrypt, do_decrypt]
    cases hsc : hw.setConfigOk <;> cases hdc : hw.decryptOk <;>
      simp [htake, EIO]

/-- Witness for C1 at a concrete 16-byte IV and one-block packet. -/
theorem cbc_iv_layout_witness :
    ((List.replicate 16 3 : List Nat).length = 16) ∧
      (((crypto_stm32_cbc_encrypt allOk blankSession
          ⟨List.replicate 16 0, 16, List.replicate 48 0, 0⟩
          (List.replicate 16 3)).ret = 0 →
        (crypto_stm32_cbc_encrypt allOk blankSession
            ⟨List.replicate 16 0, 16, List.replicate 48 0, 0⟩
            (List.replicate 16 3)).pkt.out_buf =
          List.replicate 16 3 ++
            allOk.encFn (crypto_stm32_cbc_encrypt allOk blankSession
                ⟨List.replicate 16 0, 16, List.replicate 48 0, 0⟩
                (List.replicate 16 3)).session.config
              (List.replicate 16 0) 16 ∧
        (crypto_stm32_cbc_encrypt allOk blankSession
            ⟨List.replicate 16 0, 16, List.replicate 48 0, 0⟩
            (List.replicate 16 3)).pkt.out_len = 16 + 16) ∧
      ((crypto_stm32_cbc_decrypt allOk blankSession
          ⟨List.replicate 16 0, 16, List.replicate 48 0, 0⟩
          (List.replicate 16 3)).ret = 0 →
        (crypto_stm32_cbc_decrypt allOk blankSession
            ⟨List.replicate 16 0, 16, List.replicate 48 0, 0⟩
            (List.replicate 16 3)).pkt.out_buf =
          allOk.decFn (crypto_stm32_cbc_decrypt allOk blankSession
              ⟨List.replicate 16 0, 16, List.replicate 48 0, 0⟩
              (List.replicate 16 3)).session.config
            ((List.replicate 16 0 : List Nat).drop 16) 16 ∧
        (crypto_stm32_cbc_decrypt allOk blankSession
            ⟨List.replicate 16 0, 16, List.replicate 48 0, 0⟩
            (List.replicate 16 3)).pkt.out_len = 16 - 16)) :=
  ⟨by decide,
    cbc_iv_layout allOk blankSession
      ⟨List.replicate 16 0, 16, List.replicate 48 0, 0⟩
      (List.replicate 16 3) (by decide)⟩

/-- C2 counterexample: AES-128 with an 8-bit counter gives ivlen = 15, not
word-aligned.  On that CTR encrypt call, byte 15 of the counter block (the
low-order counter byte beyond the 15-byte nonce) ends up holding nonce
byte 12 (value 1), not zero: the word swap of the final partially-filled
word moves a nonce byte into the counter tail.  This refutes the claim
that every CTR call leaves the remaining low-order counter bytes zero. -/
theorem ctr_counter_tail_cex :
    (crypto_stm32_ctr_encrypt allOk ctrTailCtx blankSession ctrTailPkt
        ctrTailIv).map (fun r => r.session.config.pInitVect.getD 15 0) =
      some 1 ∧ (1 : Nat) ≠ 0 := by
  exact ⟨by decide, by decide⟩

/-- C2 (amended): on every CTR call in either direction whose session
parameters satisfy ivlen = keylen - ctr_len/8 at most 16 (the safe regime
of C4) with an ivlen-byte caller IV, the counter block handed to the
engine is the word-swap of the nonce written over exactly ivlen bytes of
the zero-initialised 16-byte block, the block is 16 bytes long, the bytes
beyond the nonce are zero whenever ivlen is a multiple of 4 (word-aligned
nonce; not in general, per the counterexample), and on success the
reported output length equals the input length exactly. -/
theorem ctr_counter_ok (hw : HW) (ctx : cipher_ctx)
    (session : crypto_stm32_session) (pkt : cipher_pkt) (iv : List Nat)
    (hle : (ctx.keylen : Int) - ((ctx.ctr_len >>> 3 : Nat) : Int) ≤ 16)
    (hivl : (iv.length : Int) =
      (ctx.keylen : Int) - ((ctx.ctr_len >>> 3 : Nat) : Int)) :
    (∃ re, crypto_stm32_ctr_encrypt hw ctx session pkt iv = some re ∧
      re.session.config.pInitVect =
        swapWords (iv ++ List.replicate (16 - iv.length) 0) ∧
      re.session.config.pInitVect.length = 16 ∧
      (iv.length % 4 = 0 →
        re.session.config.pInitVect.drop iv.length =
          List.replicate (16 - iv.length) 0) ∧
      (re.ret = 0 → re.pkt.out_len = pkt.in_len)) ∧
    (∃ rd, crypto_stm32_ctr_decrypt hw ctx session pkt iv = some rd ∧
      rd.session.config.pInitVect =
        swapWords (iv ++ List.replicate (16 - iv.length) 0) ∧
      rd.session.config.pInitVect.length = 16 ∧
      (iv.length % 4 = 0 →
        rd.session.config.pInitVect.drop iv.length =
          List.replicate (16 - iv.length) 0) ∧
      (rd.ret = 0 → rd.pkt.out_len = pkt.in_len)) := by
  have hlen16 : iv.length ≤ 16 := by omega
  have hcrw : copy_reverse_words (List.replicate BLOCK_LEN_BYTES 0) iv
      ((ctx.keylen : Int) - ((ctx.ctr_len >>> 3 : Nat) : Int)) =
      some (swapWords (iv ++ List.replicate (16 - iv.length) 0)) := by
    rw [copy_reverse_words]
    rw [if_neg (by simp [BLOCK_LEN_BYTES]; omega)]
    rw [if_neg (by simp [BLOCK_LEN_BYTES])]
    have htoNat : ((ctx.keylen : Int) -
        ((ctx.ctr_len >>> 3 : Nat) : Int)).toNat = iv.length := by omega
    rw [htoNat]
    rw [List.take_length, BLOCK_LEN_BYTES, List.drop_replicate]
  have hvec : ∀ r : OpResult,
      r.session.config.pInitVect =
        swapWords (iv ++ List.replicate (16 - iv.length) 0) →
      r.session.config.pInitVect.length = 16 ∧
      (iv.length % 4 = 0 →
        r.session.config.pInitVect.drop iv.length =
          List.replicate (16 - iv.length) 0) := by
    intro r hr
    constructor
    · rw [hr, swapWords_length]
      simp
      omega
    · intro h4
      rw [hr, swapWords_append _ _ h4,
        swapWords_all_eq (List.replicate (16 - iv.length) 0) 0
          (fun x hx => List.eq_of_mem_replicate hx)]
      have hsl : (swapWords iv).length = iv.length := swapWords_length iv
      rw [← hsl, List.drop_left]
  constructor
  · rw [crypto_stm32_ctr_encrypt, hcrw]
    dsimp only
    split
    · next h0 =>
      refine ⟨_, rfl, rfl, (hvec _ rfl).1, (hvec _ rfl).2, fun _ => rfl⟩
    · next h0 =>
      refine ⟨_, rfl, rfl, (hvec _ rfl).1, (hvec _ rfl).2, fun hc => absurd hc h0⟩
  · rw [crypto_stm32_ctr_decrypt, hcrw]
    dsimp only
    split
    · next h0 =>
      refine ⟨_, rfl, rfl, (hvec _ rfl).1, (hvec _ rfl).2, fun _ => rfl⟩
    · next h0 =>
      refine ⟨_, rfl, rfl, (hvec _ rfl).1, (hvec _ rfl).2, fun hc => absurd hc h0⟩

/-- Witness for the amended C2 at AES-128 with a 32-bit counter:
ivlen = 12, word-aligned, 12-byte nonce of sevens. -/
theorem ctr_counter_ok_witness :
    (((16 : Nat) : Int) - ((32 >>> 3 : Nat) : Int) ≤ 16) ∧
    (((List.replicate 12 7 : List Nat).length : Int) =
      ((16 : Nat) : Int) - ((32 >>> 3 : Nat) : Int)) ∧
    (∃ re, crypto_stm32_ctr_encrypt allOk ⟨0, 16, List.replicate 16 0, 32, none, none⟩
        blankSession ⟨List.replicate 16 0, 16, List.replicate 16 0, 0⟩
        (List.replicate 12 7) = some re ∧
      re.session.config.pInitVect =
        swapWords (List.replicate 12 7 ++ List.replicate 4 0) ∧
      re.session.config.pInitVect.length = 16 ∧
      ((List.replicate 12 7 : List Nat).length % 4 = 0 →
        re.session.config.pInitVect.drop
          (List.replicate 12 7 : List Nat).length = List.replicate 4 0) ∧
      (re.ret = 0 → re.pkt.out_len = 16)) :=
  ⟨by decide, by decide,
    (ctr_counter_ok allOk ⟨0, 16, List.replicate 16 0, 32, none, none⟩
      blankSession ⟨List.replicate 16 0, 16, List.replicate 16 0, 0⟩
      (List.replicate 12 7) (by decide) (by decide)).1⟩

/-- The pool scan succeeds exactly when some slot is free. -/
theorem acquireFirst_isSome_iff (l : List crypto_stm32_session) :
    (acquireFirst l).isSome ↔ ∃ s ∈ l, s.in_use = false := by
  induction l with
  | nil => simp [acquireFirst]
  | cons s rest ih =>
    rw [acquireFirst]
    by_cases hs : s.in_use
    · rw [if_pos hs]
      cases hrest : acquireFirst rest with
      | none =>
        rw [hrest] at ih
        simp only [Option.isSome_none] at ih ⊢
        constructor
        · intro h
          exact absurd h (by decide)
        · intro ⟨t, ht, htf⟩
          rcases List.mem_cons.mp ht with h | h
          · rw [h] at htf
            rw [htf] at hs
            exact absurd hs (by decide)
          · exact absurd (ih.symm.mp ⟨t, h, htf⟩) (by decide)
      | some p =>
        rw [hrest] at ih
        simp only [Option.isSome_some, true_iff] at ih
        obtain ⟨t, ht, htf⟩ := ih
        simp only [Option.isSome_some, true_iff]
        exact ⟨t, List.mem_cons_of_mem s ht, htf⟩
    · rw [if_neg hs]
      simp only [Option.isSome_some, true_iff]
      exact ⟨s, List.mem_cons_self s rest, Bool.not_eq_true s.in_use ▸ hs⟩

/-- The pool scan fails exactly when every slot is occupied. -/
theorem acquireFirst_eq_none_iff (l : List crypto_stm32_session) :
    acquireFirst l = none ↔ ∀ s ∈ l, s.in_use = true := by
  rw [← Option.not_isSome_iff_eq_none, acquireFirst_isSome_iff]
  simp

/-- The pool scan claims the first free slot: it returns an index holding
a free session and flips exactly that in_use flag. -/
theorem acquireFirst_some_spec (l : List crypto_stm32_session) :
    ∀ i l', acquireFirst l = some (i, l') →
      i < l.length ∧ (mapInUse l).getD i true = false ∧
        (∀ j, j < i → (mapInUse l).getD j true = true) ∧
        mapInUse l' = (mapInUse l).set i true := by
  induction l with
  | nil => intro i l' h; simp [acquireFirst] at h
  | cons s rest ih =>
    intro i l' h
    rw [acquireFirst] at h
    by_cases hs : s.in_use
    · rw [if_pos hs] at h
      cases hrest : acquireFirst rest with
      | none => rw [hrest] at h; simp at h
      | some p =>
        obtain ⟨j, rest'⟩ := p
        rw [hrest] at h
        simp only [Option.some.injEq, Prod.mk.injEq] at h
        obtain ⟨hi, hl'⟩ := h
        obtain ⟨h1, h2, h3, h4⟩ := ih j rest' hrest
        subst hi hl'
        refine ⟨by simpa using Nat.succ_lt_succ h1, ?_, ?_, ?_⟩
        · simpa [mapInUse] using h2
        · intro m hm
          cases m with
          | zero => simpa [mapInUse] using hs
          | succ m =>
            have := h3 m (by omega)
            simpa [mapInUse] using this
        · simp only [mapInUse, List.map_cons, List.set] at h4 ⊢
          rw [h4]
    · rw [if_neg hs] at h
      simp only [Option.some.injEq, Prod.mk.injEq] at h
      obtain ⟨hi, hl'⟩ := h
      subst hl'
      subst hi
      refine ⟨by simp, ?_, ?_, ?_⟩
      · simpa [mapInUse] using Bool.not_eq_true s.in_use ▸ hs
      · intro m hm; omega
      · simp [mapInUse, List.set]

/-- A slot store preserves the table length. -/
theorem modifySession_length :
    ∀ (l : List crypto_stm32_session) (i : Nat)
      (f : crypto_stm32_session → crypto_stm32_session),
      (modifySession l i f).length = l.length
  | [], _, _ => rfl
  | _ :: rest, 0, _ => rfl
  | _ :: rest, n + 1, f => by
    simpa [modifySession] using modifySession_length rest n f

/-- The stored slot holds the image of the old element. -/
theorem getD_modifySession_self :
    ∀ (l : List crypto_stm32_session) (i : Nat)
      (f : crypto_stm32_session → crypto_stm32_session)
      (d : crypto_stm32_session), i < l.length →
      (modifySession l i f).getD i d = f (l.getD i d)
  | [], i, _, _, h => by simp at h
  | _ :: rest, 0, _, _, _ => rfl
  | _ :: rest, n + 1, f, d, h => by
    simpa [modifySession] using
      getD_modifySession_self rest n f d (by simpa using h)

/-- A slot store that keeps in_use keeps the liveness flags. -/
theorem mapInUse_modifySession_preserve :
    ∀ (l : List crypto_stm32_session) (i : Nat)
      (f : crypto_stm32_session → crypto_stm32_session),
      (∀ s, (f s).in_use = s.in_use) →
      mapInUse (modifySession l i f) = mapInUse l
  | [], _, _, _ => rfl
  | s :: rest, 0, f, hf => by simp [modifySession, mapInUse, hf s]
  | s :: rest, n + 1, f, hf => by
    simpa [modifySession, mapInUse] using
      mapInUse_modifySession_preserve rest n f hf

/-- Writing the in_use flag of slot i sets position i of the flag list. -/
theorem mapInUse_modifySession_set :
    ∀ (l : List crypto_stm32_session) (i : Nat) (b : Bool),
      mapInUse (modifySession l i (fun s => { s with in_use := b })) =
        (mapInUse l).set i b
  | [], _, _ => rfl
  | s :: rest, 0, b => by simp [modifySession, mapInUse, List.set]
  | s :: rest, n + 1, b => by
    simpa [modifySession, mapInUse, List.set] using
      mapInUse_modifySession_set rest n b

/-- Reading back a freshly cleared flag yields false. -/
theorem getD_set_false :
    ∀ (bl : List Bool) (i : Nat), (bl.set i false).getD i false = false
  | [], _ => rfl
  | _ :: _, 0 => rfl
  | _ :: rest, n + 1 => getD_set_false rest n

/-- Clearing a flag that is already clear is a no-op. -/
theorem set_false_of_getD_false :
    ∀ (bl : List Bool) (i : Nat), bl.getD i true = false →
      bl.set i false = bl
  | [], _, _ => rfl
  | b :: rest, 0, h => by
    simp only [List.getD_cons_zero] at h
    simp [h]
  | b :: rest, n + 1, h => by
    simp only [List.getD_cons_succ] at h
    simp [set_false_of_getD_false rest n h]

/-- Case shape of session_free: either another session is live and only
the pool semaphore is cycled, or teardown runs (failing or succeeding)
under the pool semaphore.  The slot's in_use flag is cleared in every
case. -/
theorem free_cases (hw : HW) (st : DriverState) (idx : Nat) :
    ((modifySession st.sessions idx
        (fun s => { s with in_use := false })).any (fun s => s.in_use) = true ∧
      crypto_stm32_session_free hw st idx =
        (0, { st with
              sessions := (modifySession st.sessions idx
                (fun s => { s with in_use := false })) },
          [Ev.takeSem SemId.session, Ev.giveSem SemId.session])) ∨
    ((modifySession st.sessions idx
        (fun s => { s with in_use := false })).any (fun s => s.in_use) = false ∧
      hw.deinitOk = false ∧
      crypto_stm32_session_free hw st idx =
        (- EIO, { st with
              sessions := (modifySession st.sessions idx
                (fun s => { s with in_use := false })) },
          [Ev.takeSem SemId.session, Ev.halDeInit, Ev.giveSem SemId.session])) ∨
    ((modifySession st.sessions idx
        (fun s => { s with in_use := false })).any (fun s => s.in_use) = false ∧
      hw.deinitOk = true ∧
      crypto_stm32_session_free hw st idx =
        (0, { st with
              sessions := (modifySession st.sessions idx
                (fun s => { s with in_use := false })),
              hcryp := HalState.reset },
          [Ev.takeSem SemId.session, Ev.halDeInit, Ev.halReset,
            Ev.giveSem SemId.session])) := by
  rw [crypto_stm32_session_free]
  by_cases hany : (modifySession st.sessions idx
      (fun s => { s with in_use := false })).any (fun s => s.in_use) = true
  · rw [if_pos hany]
    exact Or.inl ⟨hany, rfl⟩
  · rw [if_neg hany]
    have hany' : (modifySession st.sessions idx
        (fun s => { s with in_use := false })).any (fun s => s.in_use) = false :=
      Bool.not_eq_true _ ▸ hany
    by_cases hde : hw.deinitOk = false
    · rw [if_pos hde]
      exact Or.inr (Or.inl ⟨hany', hde, rfl⟩)
    · rw [if_neg hde]
      exact Or.inr (Or.inr ⟨hany', Bool.not_eq_false _ ▸ hde, rfl⟩)

/-- Teardown runs exactly when no session remains live after the slot is
cleared. -/
theorem free_deinit_iff (hw : HW) (st : DriverState) (idx : Nat) :
    Ev.halDeInit ∈ (crypto_stm32_session_free hw st idx).2.2 ↔
      ∀ s ∈ modifySession st.sessions idx (fun s => { s with in_use := false }),
        s.in_use = false := by
  rcases free_cases hw st idx with ⟨hany, heq⟩ | ⟨hany, _, heq⟩ | ⟨hany, _, heq⟩ <;>
    rw [heq]
  · constructor
    · intro hmem
      simp at hmem
    · intro hall
      obtain ⟨t, htmem, htuse⟩ := List.any_eq_true.mp hany
      rw [hall t htmem] at htuse
      exact absurd htuse (by decide)
  · constructor
    · intro _ t htmem
      exact Bool.not_eq_true t.in_use ▸ (List.any_eq_false.mp hany t htmem)
    · intro _
      simp
  · constructor
    · intro _ t htmem
      exact Bool.not_eq_true t.in_use ▸ (List.any_eq_false.mp hany t htmem)
    · intro _
      simp

/-- The session table coming out of session_free is always the input
table with slot idx cleared, whatever the teardown outcome. -/
theorem free_sessions_eq (hw : HW) (st : DriverState) (idx : Nat) :
    (crypto_stm32_session_free hw st idx).2.1.sessions =
      modifySession st.sessions idx (fun s => { s with in_use := false }) := by
  rcases free_cases hw st idx with ⟨_, heq⟩ | ⟨_, _, heq⟩ | ⟨_, _, heq⟩ <;> rw [heq]

/-- C5 counterexample: freeing the last live session (slot 0 of a
one-session pool) does deinitialize the accelerator, but that
deinitialization never acquires the device lock: the trace contains
HAL_CRYP_DeInit yet no take of the device semaphore, refuting the claim
that the deinitialization acquires the lock serializing encrypt/decrypt
accelerator programming. -/
theorem free_deinit_device_lock_cex :
    Ev.halDeInit ∈ (crypto_stm32_session_free allOk oneLiveState 0).2.2 ∧
      Ev.takeSem SemId.device ∉
        (crypto_stm32_session_free allOk oneLiveState 0).2.2 := by
  decide

/-- C5 (amended): freeing the last live session deinitializes the
accelerator, and that deinitialization runs entirely under the session
pool semaphore, not the device lock: HAL_CRYP_DeInit appears in the free
trace exactly when no session remains live after the slot is cleared, the
trace is bracketed by the pool-semaphore take and give, and the device
semaphore (the lock serializing encrypt/decrypt accelerator programming)
is never acquired on the free path. -/
theorem free_deinit_session_lock (hw : HW) (st : DriverState) (idx : Nat) :
    (Ev.halDeInit ∈ (crypto_stm32_session_free hw st idx).2.2 ↔
      ∀ s ∈ modifySession st.sessions idx (fun s => { s with in_use := false }),
        s.in_use = false) ∧
    (crypto_stm32_session_free hw st idx).2.2.head? =
      some (Ev.takeSem SemId.session) ∧
    (crypto_stm32_session_free hw st idx).2.2.getLast? =
      some (Ev.giveSem SemId.session) ∧
    Ev.takeSem SemId.device ∉ (crypto_stm32_session_free hw st idx).2.2 := by
  rcases free_cases hw st idx with ⟨hany, heq⟩ | ⟨hany, _, heq⟩ | ⟨hany, _, heq⟩ <;>
    rw [heq]
  · refine ⟨?_, rfl, rfl, by simp⟩
    constructor
    · intro hmem
      simp at hmem
    · intro hall
      obtain ⟨t, htmem, htuse⟩ := List.any_eq_true.mp hany
      rw [hall t htmem] at htuse
      exact absurd htuse (by decide)
  · refine ⟨?_, rfl, rfl, by simp⟩
    constructor
    · intro _
      intro t htmem
      have := List.any_eq_false.mp hany t htmem
      exact Bool.not_eq_true t.in_use ▸ this
    · intro _
      simp
  · refine ⟨?_, rfl, rfl, by simp⟩
    constructor
    · intro _
      intro t htmem
      have := List.any_eq_false.mp hany t htmem
      exact Bool.not_eq_true t.in_use ▸ this
    · intro _
      simp

/-- Witness for the amended C5 at the concrete one-session state. -/
theorem free_deinit_session_lock_witness :
    (crypto_stm32_session_free allOk oneLiveState 0).2.2.head? =
        some (Ev.takeSem SemId.session) ∧
      (crypto_stm32_session_free allOk oneLiveState 0).2.2.getLast? =
        some (Ev.giveSem SemId.session) ∧
      Ev.takeSem SemId.device ∉
        (crypto_stm32_session_free allOk oneLiveState 0).2.2 :=
  (free_deinit_session_lock allOk oneLiveState 0).2

/-- C6: session_setup rejects an unsupported capability flag, a non-AES
algorithm, a mode outside ECB/CBC/CTR, or a key length outside
16/24/32 bytes with -EINVAL before any hardware interaction and before
any session-pool slot is claimed: the driver state is returned unchanged
and the event trace is empty. -/
theorem setup_rejects_invalid (hw : HW) (st : DriverState) (ctx : cipher_ctx)
    (algo mode op_type : Nat)
    (h : ctx.flags &&& (65535 ^^^ CRYP_SUPPORT) ≠ 0 ∨
      algo ≠ CRYPTO_CIPHER_ALGO_AES ∨
      (mode ≠ CRYPTO_CIPHER_MODE_ECB ∧ mode ≠ CRYPTO_CIPHER_MODE_CBC ∧
        mode ≠ CRYPTO_CIPHER_MODE_CTR) ∨
      (ctx.keylen ≠ 16 ∧ ctx.keylen ≠ 24 ∧ ctx.keylen ≠ 32)) :
    crypto_stm32_session_setup hw st ctx algo mode op_type =
      ⟨-EINVAL, st, ctx, []⟩ := by
  rw [crypto_stm32_session_setup]
  rcases h with h | h | h | h
  · rw [if_pos h]
  · by_cases h1 : ctx.flags &&& (65535 ^^^ CRYP_SUPPORT) ≠ 0
    · rw [if_pos h1]
    · rw [if_neg h1, if_pos h]
  · by_cases h1 : ctx.flags &&& (65535 ^^^ CRYP_SUPPORT) ≠ 0
    · rw [if_pos h1]
    · rw [if_neg h1]
      by_cases h2 : algo ≠ CRYPTO_CIPHER_ALGO_AES
      · rw [if_pos h2]
      · rw [if_neg h2, if_pos h]
  · by_cases h1 : ctx.flags &&& (65535 ^^^ CRYP_SUPPORT) ≠ 0
    · rw [if_pos h1]
    · rw [if_neg h1]
      by_cases h2 : algo ≠ CRYPTO_CIPHER_ALGO_AES
      · rw [if_pos h2]
      · rw [if_neg h2]
        by_cases h3 : mode ≠ CRYPTO_CIPHER_MODE_ECB ∧
            mode ≠ CRYPTO_CIPHER_MODE_CBC ∧ mode ≠ CRYPTO_CIPHER_MODE_CTR
        · rw [if_pos h3]
        · rw [if_neg h3, if_pos h]

/-- Witness for C6: a non-AES algorithm code is rejected with state and
context unchanged and no events. -/
theorem setup_rejects_invalid_witness :
    ((0 : Nat) &&& (65535 ^^^ CRYP_SUPPORT) ≠ 0 ∨
      (2 : Nat) ≠ CRYPTO_CIPHER_ALGO_AES ∨
      ((1 : Nat) ≠ CRYPTO_CIPHER_MODE_ECB ∧ (1 : Nat) ≠ CRYPTO_CIPHER_MODE_CBC ∧
        (1 : Nat) ≠ CRYPTO_CIPHER_MODE_CTR) ∨
      ((16 : Nat) ≠ 16 ∧ (16 : Nat) ≠ 24 ∧ (16 : Nat) ≠ 32)) ∧
    crypto_stm32_session_setup allOk ⟨[blankSession], HalState.reset⟩
        ⟨0, 16, List.replicate 16 0, 0, none, none⟩ 2 1 1 =
      ⟨-EINVAL, ⟨[blankSession], HalState.reset⟩,
        ⟨0, 16, List.replicate 16 0, 0, none, none⟩, []⟩ :=
  ⟨by decide,
    setup_rejects_invalid allOk ⟨[blankSession], HalState.reset⟩
      ⟨0, 16, List.replicate 16 0, 0, none, none⟩ 2 1 1 (by decide)⟩

/-- Case shape of session_setup: parameter rejection, pool exhaustion,
first-init failure (slot released again), or success (the claimed slot's
in_use flag is the only liveness change). -/
theorem setup_shape (hw : HW) (st : DriverState) (ctx : cipher_ctx)
    (algo mode op_type : Nat) :
    crypto_stm32_session_setup hw st ctx algo mode op_type =
        ⟨-EINVAL, st, ctx, []⟩ ∨
    (crypto_stm32_session_setup hw st ctx algo mode op_type =
        ⟨-ENOSPC, st, ctx, [Ev.takeSem SemId.session, Ev.giveSem SemId.session]⟩ ∧
      acquireFirst st.sessions = none) ∨
    (∃ idx ss1, acquireFirst st.sessions = some (idx, ss1) ∧
      hw.initOk = false ∧ st.hcryp = HalState.reset ∧
      crypto_stm32_session_setup hw st ctx algo mode op_type =
        ⟨- EIO, { st with
            sessions := (modifySession (modifySession ss1 idx
              (fun s => { s with config := zeroConfig })) idx
              (fun s => { s with in_use := false })) }, ctx,
          [Ev.takeSem SemId.session, Ev.giveSem SemId.session, Ev.halInit]⟩) ∨
    (∃ idx ss1, acquireFirst st.sessions = some (idx, ss1) ∧
      (st.hcryp = HalState.reset → hw.initOk = true) ∧
      (crypto_stm32_session_setup hw st ctx algo mode op_type).ret = 0 ∧
      mapInUse (crypto_stm32_session_setup hw st ctx algo mode op_type).st.sessions
        = mapInUse ss1) := by
  rw [crypto_stm32_session_setup]
  by_cases h1 : ctx.flags &&& (65535 ^^^ CRYP_SUPPORT) ≠ 0
  · rw [if_pos h1]
    exact Or.inl rfl
  · rw [if_neg h1]
    by_cases h2 : algo ≠ CRYPTO_CIPHER_ALGO_AES
    · rw [if_pos h2]
      exact Or.inl rfl
    · rw [if_neg h2]
      by_cases h3 : mode ≠ CRYPTO_CIPHER_MODE_ECB ∧ mode ≠ CRYPTO_CIPHER_MODE_CBC ∧
          mode ≠ CRYPTO_CIPHER_MODE_CTR
      · rw [if_pos h3]
        exact Or.inl rfl
      · rw [if_neg h3]
        by_cases h4 : ctx.keylen ≠ 16 ∧ ctx.keylen ≠ 24 ∧ ctx.keylen ≠ 32
        · rw [if_pos h4]
          exact Or.inl rfl
        · rw [if_neg h4]
          cases hacq : acquireFirst st.sessions with
          | none => exact Or.inr (Or.inl ⟨rfl, rfl⟩)
          | some p =>
            obtain ⟨idx, ss1⟩ := p
            dsimp only
            by_cases hr : st.hcryp = HalState.reset
            · rw [if_pos hr]
              by_cases hio : hw.initOk = false
              · rw [if_pos hio]
                exact Or.inr (Or.inr (Or.inl ⟨idx, ss1, rfl, hio, hr, rfl⟩))
              · rw [if_neg hio]
                refine Or.inr (Or.inr (Or.inr
                  ⟨idx, ss1, rfl, fun _ => Bool.not_eq_false _ ▸ hio, rfl, ?_⟩))
                dsimp only
                rw [mapInUse_modifySession_preserve,
                    mapInUse_modifySession_preserve] <;>
                  exact fun s => rfl
            · rw [if_neg hr]
              refine Or.inr (Or.inr (Or.inr
                ⟨idx, ss1, rfl, fun hc => absurd hc hr, rfl, ?_⟩))
              dsimp only
              rw [mapInUse_modifySession_preserve,
                  mapInUse_modifySession_preserve] <;>
                exact fun s => rfl

/-- With supported parameters, a cooperating init, and a free slot, the
setup succeeds and the claimed slot is the only liveness change. -/
theorem setup_valid_ok (hw : HW) (st : DriverState) (ctx : cipher_ctx)
    (mode op_type : Nat)
    (hf : ctx.flags &&& (65535 ^^^ CRYP_SUPPORT) = 0)
    (hm : mode = CRYPTO_CIPHER_MODE_ECB ∨ mode = CRYPTO_CIPHER_MODE_CBC ∨
      mode = CRYPTO_CIPHER_MODE_CTR)
    (hk : ctx.keylen = 16 ∨ ctx.keylen = 24 ∨ ctx.keylen = 32)
    (hi : hw.initOk = true)
    (idx : Nat) (ss1 : List crypto_stm32_session)
    (hacq : acquireFirst st.sessions = some (idx, ss1)) :
    (crypto_stm32_session_setup hw st ctx
        CRYPTO_CIPHER_ALGO_AES mode op_type).ret = 0 ∧
    mapInUse (crypto_stm32_session_setup hw st ctx
        CRYPTO_CIPHER_ALGO_AES mode op_type).st.sessions = mapInUse ss1 := by
  rw [crypto_stm32_session_setup]
  rw [if_neg (not_not_intro hf)]
  rw [if_neg (by simp)]
  rw [if_neg (by rcases hm with h | h | h <;>
    simp [h, CRYPTO_CIPHER_MODE_ECB, CRYPTO_CIPHER_MODE_CBC, CRYPTO_CIPHER_MODE_CTR])]
  rw [if_neg (by rcases hk with h | h | h <;> simp [h])]
  rw [hacq]
  dsimp only
  by_cases hr : st.hcryp = HalState.reset
  · rw [if_pos hr, if_neg (by simp [hi])]
    refine ⟨rfl, ?_⟩
    dsimp only
    rw [mapInUse_modifySession_preserve, mapInUse_modifySession_preserve] <;>
      exact fun s => rfl
  · rw [if_neg hr]
    refine ⟨rfl, ?_⟩
    dsimp only
    rw [mapInUse_modifySession_preserve, mapInUse_modifySession_preserve] <;>
      exact fun s => rfl

/-- With supported parameters but an exhausted pool, the setup fails with
-ENOSPC, leaving state and context unchanged. -/
theorem setup_exhausted (hw : HW) (st : DriverState) (ctx : cipher_ctx)
    (mode op_type : Nat)
    (hf : ctx.flags &&& (65535 ^^^ CRYP_SUPPORT) = 0)
    (hm : mode = CRYPTO_CIPHER_MODE_ECB ∨ mode = CRYPTO_CIPHER_MODE_CBC ∨
      mode = CRYPTO_CIPHER_MODE_CTR)
    (hk : ctx.keylen = 16 ∨ ctx.keylen = 24 ∨ ctx.keylen = 32)
    (hacq : acquireFirst st.sessions = none) :
    crypto_stm32_session_setup hw st ctx CRYPTO_CIPHER_ALGO_AES mode op_type =
      ⟨-ENOSPC, st, ctx, [Ev.takeSem SemId.session, Ev.giveSem SemId.session]⟩ := by
  rw [crypto_stm32_session_setup]
  rw [if_neg (not_not_intro hf)]
  rw [if_neg (by simp)]
  rw [if_neg (by rcases hm with h | h | h <;>
    simp [h, CRYPTO_CIPHER_MODE_ECB, CRYPTO_CIPHER_MODE_CBC, CRYPTO_CIPHER_MODE_CTR])]
  rw [if_neg (by rcases hk with h | h | h <;> simp [h])]
  rw [hacq]

/-- C8: every free call clears the slot's in_use flag no matter how the
teardown goes; HAL_CRYP_DeInit runs exactly when no session remains live
after the clear; a teardown failure surfaces as - EIO while the slot is
still freed; and the resulting pool always has a slot for a subsequent
acquire (a failed teardown never leaks the slot). -/
theorem free_slot_release (hw : HW) (st : DriverState) (idx : Nat)
    (h : idx < st.sessions.length) :
    (mapInUse (crypto_stm32_session_free hw st idx).2.1.sessions).getD idx false
        = false ∧
    (Ev.halDeInit ∈ (crypto_stm32_session_free hw st idx).2.2 ↔
      ∀ s ∈ modifySession st.sessions idx (fun s => { s with in_use := false }),
        s.in_use = false) ∧
    (hw.deinitOk = false →
      Ev.halDeInit ∈ (crypto_stm32_session_free hw st idx).2.2 →
      (crypto_stm32_session_free hw st idx).1 = - EIO) ∧
    (acquireFirst (crypto_stm32_session_free hw st idx).2.1.sessions).isSome
      = true := by
  have hss := free_sessions_eq hw st idx
  refine ⟨?_, free_deinit_iff hw st idx, ?_, ?_⟩
  · rw [hss, mapInUse_modifySession_set]
    exact getD_set_false _ idx
  · intro hde hmem
    rcases free_cases hw st idx with ⟨_, heq⟩ | ⟨_, _, heq⟩ | ⟨_, hdt, heq⟩
    · rw [heq] at hmem
      simp at hmem
    · rw [heq]
    · rw [hdt] at hde
      exact absurd hde (by decide)
  · rw [hss]
    have hlen : idx < (modifySession st.sessions idx
        (fun s => { s with in_use := false })).length := by
      rw [modifySession_length]
      exact h
    have hget : (modifySession st.sessions idx
        (fun s => { s with in_use := false })).getD idx blankSession =
        { (st.sessions.getD idx blankSession) with in_use := false } :=
      getD_modifySession_self st.sessions idx _ blankSession h
    refine (acquireFirst_isSome_iff _).mpr
      ⟨(modifySession st.sessions idx
        (fun s => { s with in_use := false })).getD idx blankSession, ?_, ?_⟩
    · rw [List.getD_eq_getElem _ blankSession hlen]
      exact List.getElem_mem hlen
    · rw [hget]

/-- Witness for C8 at a one-session pool whose teardown fails. -/
theorem free_slot_release_witness :
    (0 < oneLiveState.sessions.length) ∧
    (mapInUse (crypto_stm32_session_free hwDeinitFail
        oneLiveState 0).2.1.sessions).getD 0 false = false ∧
    (acquireFirst (crypto_stm32_session_free hwDeinitFail
        oneLiveState 0).2.1.sessions).isSome = true :=
  ⟨by decide, (free_slot_release hwDeinitFail oneLiveState 0 (by decide)).1,
    (free_slot_release hwDeinitFail oneLiveState 0 (by decide)).2.2.2⟩

/-- C9: per-slot state machine FREE to BOUND to FREE.  A failing setup
leaves every liveness flag as it was (in particular when the one-time
hardware initialization on the first session fails, the already-claimed
slot is released and no setup can report success); a successful setup
claims exactly one previously free slot; a free clears exactly the freed
slot. -/
theorem session_state_machine (hw : HW) (st : DriverState) (ctx : cipher_ctx)
    (algo mode op_type : Nat) (idx : Nat) :
    ((crypto_stm32_session_setup hw st ctx algo mode op_type).ret ≠ 0 →
      mapInUse (crypto_stm32_session_setup hw st ctx algo mode op_type).st.sessions
        = mapInUse st.sessions) ∧
    ((crypto_stm32_session_setup hw st ctx algo mode op_type).ret = 0 →
      ∃ i, i < st.sessions.length ∧ (mapInUse st.sessions).getD i true = false ∧
        mapInUse (crypto_stm32_session_setup hw st ctx algo mode op_type).st.sessions
          = (mapInUse st.sessions).set i true) ∧
    (mapInUse (crypto_stm32_session_free hw st idx).2.1.sessions
      = (mapInUse st.sessions).set idx false) ∧
    (hw.initOk = false → st.hcryp = HalState.reset →
      (crypto_stm32_session_setup hw st ctx algo mode op_type).ret ≠ 0 ∧
      mapInUse (crypto_stm32_session_setup hw st ctx algo mode op_type).st.sessions
        = mapInUse st.sessions) := by
  have hEIOmap : ∀ i ss1, acquireFirst st.sessions = some (i, ss1) →
      mapInUse (modifySession (modifySession ss1 i
        (fun s => { s with config := zeroConfig })) i
        (fun s => { s with in_use := false })) = mapInUse st.sessions := by
    intro i ss1 ha
    obtain ⟨_, h2, _, h4⟩ := acquireFirst_some_spec st.sessions i ss1 ha
    rw [mapInUse_modifySession_set, mapInUse_modifySession_preserve, h4,
      List.set_set]
    · exact set_false_of_getD_false _ i h2
    · exact fun s => rfl
  refine ⟨?_, ?_, ?_, ?_⟩
  · intro hne
    rcases setup_shape hw st ctx algo mode op_type with
      heq | ⟨heq, _⟩ | ⟨i, ss1, ha, _, _, heq⟩ | ⟨i, ss1, ha, _, hret, hmap⟩
    · rw [heq]
    · rw [heq]
    · rw [heq]
      exact hEIOmap i ss1 ha
    · exact absurd hret hne
  · intro h0
    rcases setup_shape hw st ctx algo mode op_type with
      heq | ⟨heq, _⟩ | ⟨i, ss1, ha, _, _, heq⟩ | ⟨i, ss1, ha, _, _, hmap⟩
    · rw [heq] at h0
      exact absurd h0 (show ¬(-EINVAL = 0) by decide)
    · rw [heq] at h0
      exact absurd h0 (show ¬(-ENOSPC = 0) by decide)
    · rw [heq] at h0
      exact absurd h0 (show ¬(- EIO = 0) by decide)
    · obtain ⟨hlt, hfree, _, hset⟩ := acquireFirst_some_spec st.sessions i ss1 ha
      exact ⟨i, hlt, hfree, by rw [hmap, hset]⟩
  · rw [free_sessions_eq, mapInUse_modifySession_set]
  · intro hio hr
    rcases setup_shape hw st ctx algo mode op_type with
      heq | ⟨heq, _⟩ | ⟨i, ss1, ha, _, _, heq⟩ | ⟨i, ss1, ha, himp, hret, hmap⟩
    · constructor
      · rw [heq]
        intro h0
        exact absurd h0 (show ¬(-EINVAL = 0) by decide)
      · rw [heq]
    · constructor
      · rw [heq]
        intro h0
        exact absurd h0 (show ¬(-ENOSPC = 0) by decide)
      · rw [heq]
    · constructor
      · rw [heq]
        intro h0
        exact absurd h0 (show ¬(- EIO = 0) by decide)
      · rw [heq]
        exact hEIOmap i ss1 ha
    · have hc := himp hr
      rw [hio] at hc
      exact absurd hc (by decide)

/-- Witness for C9: freeing slot 0 of the one-session state clears
exactly that flag. -/
theorem session_state_machine_witness :
    mapInUse (crypto_stm32_session_free allOk oneLiveState 0).2.1.sessions
      = (mapInUse oneLiveState.sessions).set 0 false :=
  (session_state_machine allOk oneLiveState
    ⟨0, 16, List.replicate 16 0, 0, none, none⟩ 1 1 1 0).2.2.1

/-- An all-free pool is a run of fresh slots. -/
theorem poolAfter_zero (n : Nat) :
    poolAfter n 0 = List.replicate n blankSession := by
  simp [poolAfter]

/-- Peeling one claimed slot off a partly-claimed pool. -/
theorem poolAfter_succ (n k : Nat) :
    poolAfter (n + 1) (k + 1) = usedSession :: poolAfter n k := by
  simp [poolAfter, List.replicate_succ, Nat.succ_sub_succ, List.cons_append]

/-- The k-th acquisition from an all-free pool claims slot k. -/
theorem acquireFirst_poolAfter :
    ∀ (k n : Nat), k < n →
      acquireFirst (poolAfter n k) = some (k, poolAfter n (k + 1))
  | 0, n + 1, _ => by
    rw [poolAfter_zero, List.replicate_succ, acquireFirst,
      if_neg (by decide), poolAfter_succ, poolAfter_zero]
    rfl
  | k + 1, n + 1, h => by
    rw [poolAfter_succ, acquireFirst, if_pos (by decide),
      acquireFirst_poolAfter k n (Nat.lt_of_succ_lt_succ h), poolAfter_succ]

/-- A fully claimed pool yields no slot. -/
theorem acquireFirst_replicate_used :
    ∀ n : Nat, acquireFirst (List.replicate n usedSession) = none
  | 0 => rfl
  | n + 1 => by
    rw [List.replicate_succ, acquireFirst, if_pos (by decide),
      acquireFirst_replicate_used n]

/-- After n acquisitions the pool is fully claimed. -/
theorem poolAfter_full (n : Nat) :
    poolAfter n n = List.replicate n usedSession := by
  simp [poolAfter]

/-- After freeing one slot of a fully claimed pool, the next scan claims
exactly that slot and restores the fully claimed pool. -/
theorem acquireFirst_after_free :
    ∀ (idx n : Nat), idx < n →
      acquireFirst (modifySession (List.replicate n usedSession) idx
          (fun s => { s with in_use := false })) =
        some (idx, List.replicate n usedSession)
  | 0, n + 1, _ => by
    rw [List.replicate_succ, modifySession, acquireFirst, if_neg (by decide)]
    rfl
  | idx + 1, n + 1, h => by
    rw [List.replicate_succ, modifySession, acquireFirst, if_pos (by decide),
      acquireFirst_after_free idx n (Nat.lt_of_succ_lt_succ h)]

/-- C7: starting from an empty pool of size CRYPTO_MAX_SESSION = n, each
of the first n begin_session calls succeeds and claims the lowest free
slot in scan order; the (n+1)-st call fails with -ENOSPC leaving the
driver state untouched; and after one free_session (which returns 0) the
next begin_session succeeds again, refilling the pool. -/
theorem pool_exhaustion_cycle (hw : HW) (hal : HalState) (ctx : cipher_ctx)
    (mode op_type : Nat) (n : Nat)
    (hf : ctx.flags &&& (65535 ^^^ CRYP_SUPPORT) = 0)
    (hm : mode = CRYPTO_CIPHER_MODE_ECB ∨ mode = CRYPTO_CIPHER_MODE_CBC ∨
      mode = CRYPTO_CIPHER_MODE_CTR)
    (hk : ctx.keylen = 16 ∨ ctx.keylen = 24 ∨ ctx.keylen = 32)
    (hi : hw.initOk = true) (hd : hw.deinitOk = true) :
    (∀ k, k < n →
      (crypto_stm32_session_setup hw ⟨poolAfter n k, hal⟩ ctx
          CRYPTO_CIPHER_ALGO_AES mode op_type).ret = 0 ∧
      mapInUse (crypto_stm32_session_setup hw ⟨poolAfter n k, hal⟩ ctx
          CRYPTO_CIPHER_ALGO_AES mode op_type).st.sessions
        = mapInUse (poolAfter n (k + 1))) ∧
    (crypto_stm32_session_setup hw ⟨poolAfter n n, hal⟩ ctx
        CRYPTO_CIPHER_ALGO_AES mode op_type =
      ⟨-ENOSPC, ⟨poolAfter n n, hal⟩, ctx,
        [Ev.takeSem SemId.session, Ev.giveSem SemId.session]⟩) ∧
    (∀ idx, idx < n →
      (crypto_stm32_session_free hw ⟨poolAfter n n, hal⟩ idx).1 = 0 ∧
      (crypto_stm32_session_setup hw
          (crypto_stm32_session_free hw ⟨poolAfter n n, hal⟩ idx).2.1 ctx
          CRYPTO_CIPHER_ALGO_AES mode op_type).ret = 0 ∧
      mapInUse (crypto_stm32_session_setup hw
          (crypto_stm32_session_free hw ⟨poolAfter n n, hal⟩ idx).2.1 ctx
          CRYPTO_CIPHER_ALGO_AES mode op_type).st.sessions
        = List.replicate n true) := by
  have hmapfull : mapInUse (List.replicate n usedSession) =
      List.replicate n true := by
    simp [mapInUse, List.map_replicate, usedSession, blankSession]
  refine ⟨?_, ?_, ?_⟩
  · intro k hk'
    exact setup_valid_ok hw ⟨poolAfter n k, hal⟩ ctx mode op_type hf hm hk hi
      k (poolAfter n (k + 1)) (acquireFirst_poolAfter k n hk')
  · refine setup_exhausted hw ⟨poolAfter n n, hal⟩ ctx mode op_type hf hm hk ?_
    rw [show (DriverState.mk (poolAfter n n) hal).sessions = poolAfter n n
      from rfl, poolAfter_full]
    exact acquireFirst_replicate_used n
  · intro idx hidx
    have hss := free_sessions_eq hw ⟨poolAfter n n, hal⟩ idx
    have hacq2 : acquireFirst
        (crypto_stm32_session_free hw ⟨poolAfter n n, hal⟩ idx).2.1.sessions =
        some (idx, List.replicate n usedSession) := by
      rw [hss]
      rw [show (DriverState.mk (poolAfter n n) hal).sessions = poolAfter n n
        from rfl, poolAfter_full]
      exact acquireFirst_after_free idx n hidx
    have hsetup := setup_valid_ok hw
      (crypto_stm32_session_free hw ⟨poolAfter n n, hal⟩ idx).2.1 ctx mode
      op_type hf hm hk hi idx (List.replicate n usedSession) hacq2
    refine ⟨?_, hsetup.1, by rw [hsetup.2, hmapfull]⟩
    rcases free_cases hw ⟨poolAfter n n, hal⟩ idx with
      ⟨_, heq⟩ | ⟨_, hde0, heq⟩ | ⟨_, _, heq⟩
    · rw [heq]
    · rw [hd] at hde0
      exact absurd hde0 (by decide)
    · rw [heq]

/-- Witness for C7 at a two-slot pool with a concrete valid AES-128 ECB
context: the pool-exhausted call fails with -ENOSPC and changes nothing. -/
theorem pool_exhaustion_cycle_witness :
    crypto_stm32_session_setup allOk ⟨poolAfter 2 2, HalState.ready⟩
        ⟨0, 16, List.replicate 16 0, 0, none, none⟩
        CRYPTO_CIPHER_ALGO_AES 1 1 =
      ⟨-ENOSPC, ⟨poolAfter 2 2, HalState.ready⟩,
        ⟨0, 16, List.replicate 16 0, 0, none, none⟩,
        [Ev.takeSem SemId.session, Ev.giveSem SemId.session]⟩ :=
  (pool_exhaustion_cycle allOk HalState.ready
    ⟨0, 16, List.replicate 16 0, 0, none, none⟩ 1 1 2 (by decide)
    (by decide) (by decide) (by decide) (by decide)).2.1

end CryptoStm32
